import Mathlib

/-!
Verification of the nami PDF-search service (src/nami.py).

The development shallowly embeds the pure/control-flow core of the
program: the HTML result extractor `parse_html` (lines 40-52), the
response classifier `fetch_url` (lines 31-38), the retry loop
`perform_search` (lines 54-70) and the cached aggregate endpoint
`search` (lines 72-92).

Modelling conventions:
* Python strings are Lean `String` (lists of characters).
* An HTML document is identified with the ordered list of its
  `div.g` result containers, each carrying the optional href of its
  first hyperlink and the optional text of its first `h3` heading
  (BeautifulSoup, which turns text into that tree, is an external
  library and below the abstraction level of the spec).
* The network is an environment function giving, for each requested
  url, header set and attempt number, the `HttpResponse` that the GET
  returns; exceptions are `Except` values.
* `random.uniform(0, 1)` jitter is an arbitrary function
  `jit : Nat -> Rat`, constrained where a claim needs its range.
* Machine floats of the sleep computation are modelled as exact
  rationals.
-/

namespace Nami

/-! ### Python `str.split`, character-list level

`href.split("&")[0].split("?q=")[-1]` (line 48) is the url
normalization.  `pySplitSkip` scans left to right; `skip` counts the
characters of an already-matched separator occurrence that remain to
be consumed, `cur` is the current chunk, reversed.  This mirrors
Python `str.split` for a non-empty separator: non-overlapping
occurrences found left to right. -/
def pySplitSkip (sep : List Char) : List Char → Nat → List Char → List (List Char)
  | [], _, cur => [cur.reverse]
  | _ :: rest, skip+1, cur => pySplitSkip sep rest skip cur
  | c :: rest, 0, cur =>
    if sep.length ≠ 0 ∧ (c :: rest).take sep.length = sep then
      cur.reverse :: pySplitSkip sep rest (sep.length - 1) []
    else
      pySplitSkip sep rest 0 (c :: cur)

/-- Python `s.split(sep)` for a non-empty `sep`. -/
def pySplit (sep s : List Char) : List (List Char) := pySplitSkip sep s 0 []

/-- The separator `"&"` of line 48. -/
def amp : List Char := "&".data

/-- The separator `"?q="` of line 48. -/
def qMarker : List Char := "?q=".data

/-- Line 48: `url = href.split("&")[0].split("?q=")[-1]`.  Python's
`[0]` on the never-empty split result is `headD`, `[-1]` is
`getLastD`. -/
def href_split_amp (href : String) : List Char := (pySplit amp href.data).headD []

def normalize_url (href : String) : String :=
  String.mk ((pySplit qMarker (href_split_amp href)).getLastD [])

/-- A separator with no self-overlap: no nonempty proper suffix of it
is also a prefix.  Both `"&"` and `"?q="` satisfy this; for such
separators the left-to-right scan of Python `split` finds the true
first and last occurrences. -/
def noOverlap (sep : List Char) : Prop :=
  ∀ k, 0 < k → k < sep.length → sep.drop k ≠ sep.take (sep.length - k)

/-- Decidable occurrence check: `sep` occurs somewhere in `s`
(assuming `sep ≠ []`). -/
def hasOccB (sep : List Char) : List Char → Bool
  | [] => false
  | c :: rest => ((c :: rest).take sep.length == sep) || hasOccB sep rest

/-! ### The extractor, lines 40-52 -/

/-- One `div.g` result container: the href of its first `a[href]`
child (if any) and the text of its first `h3` child (if any). -/
structure Container where
  link : Option String
  title : Option String
deriving DecidableEq

/-- An HTML document, identified with its list of result containers. -/
abbrev Html := List Container

/-- Lines 44-49: a container contributes `(title.text, normalized
url)` when both the link and the title are present, nothing
otherwise. -/
def containerResult (g : Container) : Option (String × String) :=
  match g.link, g.title with
  | some href, some t => some (t, normalize_url href)
  | _, _ => none

/-- The loop of lines 43-51: append the result of each contributing
container; after every container (appended or not) stop as soon as
`len(results) >= num_results`. -/
def parseLoop (num_results : Int) : List Container → List (String × String) → List (String × String)
  | [], acc => acc
  | g :: rest, acc =>
    let acc' := match containerResult g with
      | some p => acc ++ [p]
      | none => acc
    if num_results ≤ (acc'.length : Int) then acc' else parseLoop num_results rest acc'

/-- The function parse_html of lines 40-52. -/
def parse_html (html : Html) (num_results : Int) : List (String × String) :=
  parseLoop num_results html []

/-! ### The fetcher, lines 31-38 -/

/-- The outcome of one HTTP GET: status code and (when relevant) the
body, already viewed as its container tree. -/
structure HttpResponse where
  status : Nat
  body : Html
deriving DecidableEq

/-- A raised `HTTPException(status_code, detail)`. -/
structure HttpError where
  status : Nat
  detail : String
deriving DecidableEq

/-- Python `str(e)` of an `HTTPException`, used inside the f-string of
line 70; starlette renders it as the status code, a colon-space, then the detail. -/
def errStr (e : HttpError) : String := toString e.status ++ ": " ++ e.detail

/-- Lines 31-38, `fetch_url`: status 200 returns the body, 429 raises
the rate-limit error, anything else raises the generic error carrying
the status.  A single classification of a single response: the
function itself never retries. -/
def fetch_url (resp : HttpResponse) : Except HttpError Html :=
  if resp.status = 200 then .ok resp.body
  else if resp.status = 429 then .error ⟨429, "Rate limit exceeded"⟩
  else .error ⟨resp.status, "Unexpected response status: " ++ toString resp.status⟩

/-- The error value `fetch_url` raises on a non-200 response. -/
def fetchError (resp : HttpResponse) : HttpError :=
  if resp.status = 429 then ⟨429, "Rate limit exceeded"⟩
  else ⟨resp.status, "Unexpected response status: " ++ toString resp.status⟩

/-! ### The retry loop, lines 54-70 -/

/-- The literal browser User-Agent string of line 56. -/
def browser_user_agent : String :=
  "Mozilla/5.0 (Windows NT 10.0; Win64; x64) AppleWebKit/537.36 (KHTML, like Gecko) Chrome/91.0.4472.124 Safari/537.36"

/-- The literal browser headers of lines 55-57. -/
def headers : List (String × String) :=
  [("User-Agent", browser_user_agent)]

/-- Line 67: `backoff_factor * (2 ** attempt) + random.uniform(0, 1)`,
with the uniform draw of attempt `a` modelled as `jit a`. -/
def sleepTime (backoff_factor : ℚ) (jit : Nat → ℚ) (attempt : Nat) : ℚ :=
  backoff_factor * 2 ^ attempt + jit attempt

/-- Line 70: the terminal HTTPException with status 500 whose detail
interpolates the retry count and the rendering of the last cause. -/
def exhaustedError (retries : Nat) (e : HttpError) : HttpError :=
  ⟨500, "All " ++ toString retries ++ " attempts failed. Error: " ++ errStr e⟩

/-- Observable trace of one `perform_search` call: the returned value
(`none` when the `for` loop falls through, which happens only for
`retries = 0`), the number of fetch attempts actually made, and the
list of back-off sleeps performed between attempts. -/
structure RunResult where
  outcome : Option (Except HttpError (List (String × String)))
  attempts : Nat
  sleeps : List ℚ

/-- The `for attempt in range(retries)` loop of lines 58-70, fuel =
number of remaining iterations (`retries - attempt`, maintained by the
caller).  Each iteration fetches (`net attempt` is the response of the
GET of attempt number `attempt`), on success parses and returns, on
any exception either sleeps `sleepTime` and retries (`attempt <
retries - 1`, written `attempt + 1 < retries`) or raises
`exhaustedError`. -/
def performAux (net : Nat → HttpResponse) (num_results : Int) (retries : Nat)
    (backoff_factor : ℚ) (jit : Nat → ℚ) : Nat → Nat → RunResult
  | 0, _ => ⟨none, 0, []⟩
  | fuel+1, attempt =>
    match fetch_url (net attempt) with
    | .ok html => ⟨some (.ok (parse_html html num_results)), 1, []⟩
    | .error e =>
      if attempt + 1 < retries then
        let rest := performAux net num_results retries backoff_factor jit fuel (attempt + 1)
        ⟨rest.outcome, rest.attempts + 1, sleepTime backoff_factor jit attempt :: rest.sleeps⟩
      else
        ⟨some (.error (exhaustedError retries e)), 1, []⟩

/-- The function perform_search of lines 54-70, for a search url: every attempt
GETs `search_url` with the literal browser `headers`. -/
def perform_search (net : String → List (String × String) → Nat → HttpResponse)
    (search_url : String) (num_results : Int) (retries : Nat)
    (backoff_factor : ℚ) (jit : Nat → ℚ) : RunResult :=
  performAux (fun attempt => net search_url headers attempt)
    num_results retries backoff_factor jit retries 0

/-- Default `retries=3` of line 54. -/
def default_retries : Nat := 3

/-- Default `backoff_factor=1` of line 54. -/
def default_backoff : ℚ := 1

/-! ### The data model, lines 19-29 -/

structure SearchRequest where
  query : String
  num_results : Int
deriving DecidableEq

/-- Construction of a `SearchRequest` from a request body (lines
19-21): pydantic fills `num_results = 10` when the field is omitted
and performs no further validation. -/
def mkSearchRequest (query : String) (num_results : Option Int) : SearchRequest :=
  ⟨query, num_results.getD 10⟩

structure SearchResult where
  title : String
  url : String
deriving DecidableEq

structure SearchResponse where
  global_results : List SearchResult
  archive_results : List SearchResult
deriving DecidableEq

/-- Lines 87-88: wrap the `(title, url)` pairs into `SearchResult`s. -/
def toResults (l : List (String × String)) : List SearchResult :=
  l.map fun p => ⟨p.1, p.2⟩

/-! ### The result cache, line 17 -/

/-- Modelled from the spec: the `TTLCache(maxsize=100, ttl=3600)` of
line 17 comes from the external `cachetools` library, whose code is
not part of this repository.  Following the spec (section 4.5), it is
a bounded store of entries `(key, insertion time, value)`; an entry
expires a fixed TTL after insertion and `get` never returns an expired
entry; inserting beyond capacity evicts the oldest-inserted entry
first. -/
structure CacheState where
  entries : List (String × ℚ × SearchResponse)
deriving DecidableEq

/-- The ttl=3600 of line 17. -/
def cache_ttl : ℚ := 3600

/-- The maxsize=100 of line 17. -/
def cache_maxsize : Nat := 100

/-- Modelled from the spec: cache lookup at time `now` — the entry for
`k`, masked if its TTL has elapsed. -/
def cacheGet (c : CacheState) (now : ℚ) (k : String) : Option SearchResponse :=
  match c.entries.find? (fun e => e.1 == k && decide (now < e.2.1 + cache_ttl)) with
  | some e => some e.2.2
  | none => none

/-- Modelled from the spec: cache insertion at time `now` — replace
any entry for `k`, append the new entry, evict oldest-inserted entries
while over capacity. -/
def cachePut (c : CacheState) (now : ℚ) (k : String) (v : SearchResponse) : CacheState :=
  let l := c.entries.filter (fun e => e.1 != k) ++ [(k, now, v)]
  ⟨if cache_maxsize < l.length then l.drop (l.length - cache_maxsize) else l⟩

/-! ### The endpoint, lines 72-92 -/

/-- Line 74: the cache key, the query text, a colon, then the count. -/
def cache_key (request : SearchRequest) : String :=
  request.query ++ ":" ++ toString request.num_results

/-- Line 78. -/
def global_search_url (query : String) : String :=
  "https://www.google.com/search?q=filetype:pdf+" ++ query

/-- Line 79. -/
def archive_search_url (query : String) : String :=
  "https://www.google.com/search?q=site:archive.org+filetype:pdf+" ++ query

/-- Spec-side constant: the base search endpoint (spec section 6). -/
def search_endpoint : String := "https://www.google.com/search?q="

/-- Spec-side constant: the `filetype:pdf` filter prefix (spec section 6). -/
def filetype_filter : String := "filetype:pdf+"

/-- Spec-side constant: the site-scope filter to the archival host
(spec section 6). -/
def archive_scope : String := "site:archive.org+"

/-- Placeholder error for the unreachable `None` return of
`perform_search` (it needs `retries = 0`, while `search` always calls
with the default `retries = 3`). -/
def no_result_error : HttpError := ⟨500, ""⟩

/-- Observable outcome of one `POST /search` call: the response or the
propagated exception, the cache state afterwards, and whether the two
network searches were performed (`false` exactly on a cache hit). -/
structure SearchCallResult where
  result : Except HttpError SearchResponse
  cache : CacheState
  performed_search : Bool

/-- The endpoint search of lines 72-92: return a fresh unexpired cache entry
immediately; otherwise run the two `perform_search` calls (general and
archive-scoped, `asyncio.gather`: a terminal failure of either
propagates and no partial response is built), compose the response,
store it in the cache and return it. -/
def search (net : String → List (String × String) → Nat → HttpResponse)
    (jitG jitA : Nat → ℚ) (c : CacheState) (now : ℚ)
    (request : SearchRequest) : SearchCallResult :=
  match cacheGet c now (cache_key request) with
  | some resp => ⟨.ok resp, c, false⟩
  | none =>
    match (perform_search net (global_search_url request.query) request.num_results
            default_retries default_backoff jitG).outcome.getD (.error no_result_error),
          (perform_search net (archive_search_url request.query) request.num_results
            default_retries default_backoff jitA).outcome.getD (.error no_result_error) with
    | .ok global_results, .ok archive_results =>
      ⟨.ok ⟨toResults global_results, toResults archive_results⟩,
        cachePut c now (cache_key request) ⟨toResults global_results, toResults archive_results⟩,
        true⟩
    | .error e, _ => ⟨.error e, c, true⟩
    | .ok _, .error e => ⟨.error e, c, true⟩

/-! ### Lemmas about the split scanner -/

theorem pySplitSkip_consume (sep : List Char) :
    ∀ (k : Nat) (t cur : List Char),
      pySplitSkip sep t k cur = pySplitSkip sep (t.drop k) 0 cur := by
  intro k
  induction k with
  | zero => intro t cur; rfl
  | succ k ih =>
    intro t cur
    cases t with
    | nil => rfl
    | cons c rest =>
      rw [List.drop_succ_cons]
      exact ih rest cur

theorem pySplitSkip_acc (sep : List Char) :
    ∀ t : List Char, ∃ h tl,
      pySplitSkip sep t 0 [] = h :: tl ∧
      ∀ cur, pySplitSkip sep t 0 cur = (cur.reverse ++ h) :: tl := by
  intro t
  induction t with
  | nil => exact ⟨[], [], rfl, fun cur => by simp [pySplitSkip]⟩
  | cons c rest ih =>
    by_cases hc : sep.length ≠ 0 ∧ (c :: rest).take sep.length = sep
    · refine ⟨[], pySplitSkip sep rest (sep.length - 1) [], ?_, ?_⟩
      · simp only [pySplitSkip, if_pos hc, List.reverse_nil]
      · intro cur
        simp only [pySplitSkip, if_pos hc, List.append_nil]
    · obtain ⟨h, tl, h1, h2⟩ := ih
      refine ⟨c :: h, tl, ?_, ?_⟩
      · have e : pySplitSkip sep (c :: rest) 0 [] = pySplitSkip sep rest 0 [c] := by
          simp only [pySplitSkip, if_neg hc]
        rw [e, h2 [c]]
        simp
      · intro cur
        have e : pySplitSkip sep (c :: rest) 0 cur = pySplitSkip sep rest 0 (c :: cur) := by
          simp only [pySplitSkip, if_neg hc]
        rw [e, h2 (c :: cur)]
        simp

theorem pySplit_ne_nil (sep s : List Char) : pySplit sep s ≠ [] := by
  obtain ⟨h, tl, h1, -⟩ := pySplitSkip_acc sep s
  rw [pySplit, h1]
  simp

theorem pySplit_cons_of_ne_nil (sep s : List Char) :
    ∃ h tl, pySplit sep s = h :: tl := by
  rcases e : pySplit sep s with _ | ⟨h, tl⟩
  · exact absurd e (pySplit_ne_nil sep s)
  · exact ⟨h, tl, rfl⟩

theorem sep_length_ne_zero {sep : List Char} (hsep : sep ≠ []) : sep.length ≠ 0 :=
  fun h => hsep (List.length_eq_zero.mp h)

/-- Scan step on a separator occurrence at position 0. -/
theorem pySplit_match (sep s : List Char) (hsep : sep ≠ [])
    (h0 : s.take sep.length = sep) :
    pySplit sep s = [] :: pySplit sep (s.drop sep.length) := by
  cases s with
  | nil => exact absurd h0.symm (by simpa using hsep)
  | cons c rest =>
    have hlen : sep.length ≠ 0 := sep_length_ne_zero hsep
    obtain ⟨k, hk⟩ := Nat.exists_eq_succ_of_ne_zero hlen
    calc pySplit sep (c :: rest)
        = [] :: pySplitSkip sep rest (sep.length - 1) [] := by
          simp only [pySplit, pySplitSkip, if_pos (And.intro hlen h0), List.reverse_nil]
      _ = [] :: pySplit sep (rest.drop (sep.length - 1)) := by
          rw [pySplitSkip_consume]
          rfl
      _ = [] :: pySplit sep ((c :: rest).drop sep.length) := by
          rw [hk]
          simp

/-- Scan step when no separator occurrence starts at position 0. -/
theorem pySplit_nomatch (sep : List Char) (c : Char) (rest h : List Char)
    (tl : List (List Char)) (h0 : (c :: rest).take sep.length ≠ sep)
    (hh : pySplit sep rest = h :: tl) :
    pySplit sep (c :: rest) = (c :: h) :: tl := by
  have hc : ¬ (sep.length ≠ 0 ∧ (c :: rest).take sep.length = sep) :=
    fun hand => h0 hand.2
  obtain ⟨h', tl', h1, h2⟩ := pySplitSkip_acc sep rest
  have hinj : h' :: tl' = h :: tl := by
    rw [← h1, ← hh]
    rfl
  injection hinj with e1 e2
  subst e1
  subst e2
  have e : pySplit sep (c :: rest) = pySplitSkip sep rest 0 [c] := by
    simp only [pySplit, pySplitSkip, if_neg hc]
  rw [e, h2 [c]]
  simp

/-- When the separator does not occur, Python split returns the whole
string as the single chunk. -/
theorem pySplit_of_not_occ (sep : List Char) (hsep : sep ≠ []) :
    ∀ s : List Char, (¬ ∃ x y, s = x ++ sep ++ y) → pySplit sep s = [s] := by
  intro s
  induction s with
  | nil => intro _; rfl
  | cons c rest ih =>
    intro hno
    have h0 : (c :: rest).take sep.length ≠ sep := by
      intro h
      refine hno ⟨[], (c :: rest).drop sep.length, ?_⟩
      conv_lhs => rw [← List.take_append_drop sep.length (c :: rest)]
      rw [h]
      simp
    have hrest : ¬ ∃ x y, rest = x ++ sep ++ y := by
      rintro ⟨x, y, hxy⟩
      exact hno ⟨c :: x, y, by rw [hxy]; simp⟩
    exact pySplit_nomatch sep c rest rest [] h0 (ih hrest)

/-- A singleton split means the separator does not occur. -/
theorem pySplit_eq_singleton (sep : List Char) (hsep : sep ≠ []) :
    ∀ s y : List Char, pySplit sep s = [y] →
      y = s ∧ ¬ ∃ x z, s = x ++ sep ++ z := by
  intro s
  induction s with
  | nil =>
    intro y hy
    have hy' : ([[]] : List (List Char)) = [y] := by rw [← hy]; rfl
    injection hy' with e1 _
    constructor
    · exact e1.symm
    · rintro ⟨x, z, hxz⟩
      have hl := congrArg List.length hxz
      simp [List.length_append] at hl
      have hs0 : sep.length ≠ 0 := sep_length_ne_zero hsep
      omega
  | cons c rest ih =>
    intro y hy
    by_cases h0 : (c :: rest).take sep.length = sep
    · rw [pySplit_match sep (c :: rest) hsep h0] at hy
      injection hy with _ e2
      exact absurd e2 (pySplit_ne_nil sep _)
    · obtain ⟨h, tl, hh⟩ := pySplit_cons_of_ne_nil sep rest
      rw [pySplit_nomatch sep c rest h tl h0 hh] at hy
      injection hy with e1 e2
      subst e2
      obtain ⟨he, hno⟩ := ih h hh
      subst he
      refine ⟨e1.symm, ?_⟩
      rintro ⟨x, z, hxz⟩
      cases x with
      | nil =>
        apply h0
        rw [hxz]
        simp [List.take_left]
      | cons x0 x' =>
        rw [List.append_assoc, List.cons_append] at hxz
        injection hxz with _ hrest
        rw [← List.append_assoc] at hrest
        exact hno ⟨x', z, hrest⟩

/-- Two overlapping separator occurrences force a self-overlap of the
separator. -/
theorem overlap_contra (sep s b c : List Char) (hov : noOverlap sep)
    (htake : s.take sep.length = sep) (hs : s = b ++ sep ++ c)
    (hb : b ≠ []) (hlt : b.length < sep.length) : False := by
  have hbpos : 0 < b.length := List.length_pos.mpr hb
  have h1 : s.drop b.length = sep ++ c := by
    rw [hs, List.append_assoc]
    exact List.drop_left b (sep ++ c)
  have h2 : sep.drop b.length = sep.take (sep.length - b.length) := by
    have e1 : sep.drop b.length = (s.take sep.length).drop b.length := by rw [htake]
    rw [List.drop_take, h1, List.take_append_eq_append_take] at e1
    have hz : sep.length - b.length - sep.length = 0 := by omega
    rw [hz] at e1
    simpa using e1
  exact hov b.length hbpos hlt h2

/-- The head of Python split is the chunk before the first separator
occurrence (separator without self-overlap). -/
theorem pySplit_head (sep : List Char) (hsep : sep ≠ []) (hov : noOverlap sep) :
    ∀ b c : List Char, (¬ ∃ x y, b = x ++ sep ++ y) →
      (pySplit sep (b ++ sep ++ c)).headD [] = b := by
  intro b
  induction b with
  | nil =>
    intro c _
    have h0 : (([] : List Char) ++ sep ++ c).take sep.length = sep := by
      simp [List.take_left]
    rw [pySplit_match sep _ hsep h0]
    rfl
  | cons x b' ih =>
    intro c hno
    have hb'no : ¬ ∃ p q, b' = p ++ sep ++ q := by
      rintro ⟨p, q, hpq⟩
      exact hno ⟨x :: p, q, by rw [hpq]; simp⟩
    have h0 : ((x :: b') ++ sep ++ c).take sep.length ≠ sep := by
      intro htake
      by_cases hle : sep.length ≤ (x :: b').length
      · have htk : (x :: b').take sep.length = sep := by
          rw [List.append_assoc, List.take_append_eq_append_take] at htake
          have hz : sep.length - (x :: b').length = 0 := by omega
          rw [hz] at htake
          simpa using htake
        refine hno ⟨[], (x :: b').drop sep.length, ?_⟩
        conv_lhs => rw [← List.take_append_drop sep.length (x :: b')]
        rw [htk]
        simp
      · exact overlap_contra sep _ (x :: b') c hov htake rfl (by simp) (by omega)
    obtain ⟨h, tl, hh⟩ := pySplit_cons_of_ne_nil sep (b' ++ sep ++ c)
    have hhead := ih c hb'no
    rw [hh] at hhead
    have hcons : (x :: b') ++ sep ++ c = x :: (b' ++ sep ++ c) := by simp
    rw [hcons] at h0 ⊢
    rw [pySplit_nomatch sep x (b' ++ sep ++ c) h tl h0 hh]
    simpa using hhead

/-- The last chunk of Python split is the chunk after the last
separator occurrence (separator without self-overlap); stated with an
explicit length bound `n` for strong induction. -/
theorem pySplit_last (sep : List Char) (hsep : sep ≠ []) (hov : noOverlap sep) :
    ∀ (n : Nat) (s a u : List Char), s.length ≤ n → s = a ++ sep ++ u →
      (¬ ∃ x y, u = x ++ sep ++ y) →
      (pySplit sep s).getLastD [] = u := by
  intro n
  induction n with
  | zero =>
    intro s a u hn hs _
    exfalso
    have hl := congrArg List.length hs
    simp [List.length_append] at hl
    have hs0 : sep.length ≠ 0 := sep_length_ne_zero hsep
    omega
  | succ n ih =>
    intro s a u hn hs hnou
    by_cases h0 : s.take sep.length = sep
    · rw [pySplit_match sep s hsep h0]
      obtain ⟨h, tl, hh⟩ := pySplit_cons_of_ne_nil sep (s.drop sep.length)
      rw [hh, List.getLastD_cons, ← hh]
      have hs0 : sep.length ≠ 0 := sep_length_ne_zero hsep
      cases a with
      | nil =>
        have hdrop : s.drop sep.length = u := by
          rw [hs]
          simp [List.drop_left]
        rw [hdrop, pySplit_of_not_occ sep hsep u hnou]
        rfl
      | cons a0 a' =>
        by_cases hle : sep.length ≤ (a0 :: a').length
        · have hdrop : s.drop sep.length = (a0 :: a').drop sep.length ++ sep ++ u := by
            rw [hs, List.append_assoc, List.drop_append_eq_append_drop]
            have hz : sep.length - (a0 :: a').length = 0 := by omega
            rw [hz]
            simp [List.append_assoc]
          have hlen : (s.drop sep.length).length ≤ n := by
            have := congrArg List.length hs
            simp [List.length_append] at this
            simp [List.length_drop]
            omega
          exact ih (s.drop sep.length) ((a0 :: a').drop sep.length) u hlen hdrop hnou
        · exact (overlap_contra sep s (a0 :: a') u hov h0 hs (by simp) (by omega)).elim
    · cases s with
      | nil =>
        exfalso
        have hl := congrArg List.length hs
        simp [List.length_append] at hl
        have hs0 : sep.length ≠ 0 := sep_length_ne_zero hsep
        omega
      | cons c rest =>
        cases a with
        | nil =>
          exfalso
          apply h0
          rw [hs]
          simp [List.take_left]
        | cons a0 a' =>
          have hs' : c :: rest = a0 :: (a' ++ sep ++ u) := by
            rw [hs]
            simp
          injection hs' with _ hrest
          obtain ⟨h, tl, hh⟩ := pySplit_cons_of_ne_nil sep rest
          rw [pySplit_nomatch sep c rest h tl h0 hh, List.getLastD_cons]
          cases tl with
          | nil =>
            exfalso
            obtain ⟨-, hno⟩ := pySplit_eq_singleton sep hsep rest h hh
            exact hno ⟨a', u, hrest⟩
          | cons z tl' =>
            rw [List.getLastD_cons]
            have hlen : rest.length ≤ n := by
              simp at hn
              omega
            have hrec := ih rest a' u hlen hrest hnou
            rw [hh, List.getLastD_cons, List.getLastD_cons] at hrec
            exact hrec

/-- Soundness of the no-occurrence check hasOccB. -/
theorem not_occ_of_hasOccB_false (sep : List Char) (hsep : sep ≠ []) :
    ∀ s : List Char, hasOccB sep s = false → ¬ ∃ x y, s = x ++ sep ++ y := by
  intro s
  induction s with
  | nil =>
    intro _
    rintro ⟨x, y, hxy⟩
    have hl := congrArg List.length hxy
    simp [List.length_append] at hl
    have hs0 : sep.length ≠ 0 := sep_length_ne_zero hsep
    omega
  | cons c rest ih =>
    intro hB
    rw [hasOccB, Bool.or_eq_false_iff] at hB
    obtain ⟨h1, h2⟩ := hB
    rintro ⟨x, y, hxy⟩
    cases x with
    | nil =>
      have htk : (c :: rest).take sep.length = sep := by
        rw [hxy]
        simp [List.take_left]
      simp [htk] at h1
    | cons x0 x' =>
      have hs' : c :: rest = x0 :: (x' ++ sep ++ y) := by
        rw [hxy]
        simp
      injection hs' with _ hrest
      exact ih h2 ⟨x', y, hrest⟩

theorem noOverlap_amp : noOverlap amp := by
  intro k h1 h2
  have h3 : k < 1 := h2
  omega

theorem noOverlap_qMarker : noOverlap qMarker := by
  intro k h1 h2
  have h3 : k < 3 := h2
  interval_cases k
  · decide
  · decide

/-- Claim C5: for every raw href, the normalized url is the substring
of the href before its first `&`; then, if that prefix contains a
`?q=` marker, the substring after the last occurrence of `?q=`, and
the prefix as-is otherwise.  "Before the first occurrence" of a chunk
`b` is characterized by `href = b ++ sep ++ rest` with no occurrence
inside `b`; "after the last occurrence" of a chunk `u` by
`prefix = rest ++ sep ++ u` with no occurrence inside `u`. -/
theorem claim_C5 (href : String) :
    ((¬ ∃ x y, href.data = x ++ amp ++ y) → href_split_amp href = href.data)
    ∧ (∀ b c, href.data = b ++ amp ++ c → (¬ ∃ x y, b = x ++ amp ++ y) →
        href_split_amp href = b)
    ∧ ((¬ ∃ x y, href_split_amp href = x ++ qMarker ++ y) →
        normalize_url href = String.mk (href_split_amp href))
    ∧ (∀ a u, href_split_amp href = a ++ qMarker ++ u →
        (¬ ∃ x y, u = x ++ qMarker ++ y) →
        normalize_url href = String.mk u) := by
  have hamp : amp ≠ [] := by decide
  have hqm : qMarker ≠ [] := by decide
  refine ⟨?_, ?_, ?_, ?_⟩
  · intro hno
    rw [href_split_amp, pySplit_of_not_occ amp hamp href.data hno]
    rfl
  · intro b c hbc hno
    rw [href_split_amp, hbc]
    exact pySplit_head amp hamp noOverlap_amp b c hno
  · intro hno
    rw [normalize_url, pySplit_of_not_occ qMarker hqm _ hno]
    rfl
  · intro a u hau hno
    rw [normalize_url]
    exact congrArg String.mk
      (pySplit_last qMarker hqm noOverlap_qMarker
        (href_split_amp href).length (href_split_amp href) a u le_rfl hau hno)

/-- Witness for C5 at a concrete Google-redirect-style href. -/
theorem claim_C5_witness :
    normalize_url ("/url?q=https://a.org/b.pdf&sa=U&ved=2a") = "https://a.org/b.pdf" := by
  have h := (claim_C5 ("/url?q=https://a.org/b.pdf&sa=U&ved=2a")).2.2.2
    ("/url".data) ("https://a.org/b.pdf".data)
    (by decide)
    (not_occ_of_hasOccB_false qMarker (by decide) ("https://a.org/b.pdf".data) (by decide))
  exact h

/-! ### Lemmas about the extractor loop -/

/-- Invariant of the loop of lines 43-51: while the accumulated count
is below the bound, the loop returns the accumulator followed by the
contributions of the remaining containers, truncated to the bound. -/
theorem parseLoop_invariant (m : Int) :
    ∀ (doc : List Container) (acc : List (String × String)),
      (acc.length : Int) < m →
      parseLoop m doc acc = (acc ++ doc.filterMap containerResult).take m.toNat := by
  intro doc
  induction doc with
  | nil =>
    intro acc hacc
    have hlen : acc.length ≤ m.toNat := by omega
    rw [parseLoop]
    simp [List.take_of_length_le hlen]
  | cons g rest ih =>
    intro acc hacc
    rcases hg : containerResult g with _ | p
    · have e : parseLoop m (g :: rest) acc = parseLoop m rest acc := by
        rw [parseLoop, hg]
        simp only []
        rw [if_neg (by omega)]
      rw [e, ih acc hacc, List.filterMap_cons, hg]
    · by_cases hstop : m ≤ ((acc ++ [p]).length : Int)
      · have hm : m.toNat = acc.length + 1 := by
          simp [List.length_append] at hstop
          omega
        have e : parseLoop m (g :: rest) acc = acc ++ [p] := by
          rw [parseLoop, hg]
          simp only []
          rw [if_pos hstop]
        rw [e, List.filterMap_cons, hg]
        rw [List.take_append_eq_append_take, hm]
        have h1 : acc.take (acc.length + 1) = acc := List.take_of_length_le (by omega)
        have h2 : acc.length + 1 - acc.length = 1 := by omega
        rw [h1, h2]
        rfl
      · have hlt : ((acc ++ [p]).length : Int) < m := by
          simp [List.length_append] at hstop ⊢
          omega
        have e : parseLoop m (g :: rest) acc = parseLoop m rest (acc ++ [p]) := by
          rw [parseLoop, hg]
          simp only []
          rw [if_neg hstop]
        rw [e, ih (acc ++ [p]) hlt, List.filterMap_cons, hg]
        simp [List.append_assoc]

/-- Claim C1: for `num_results = m ≥ 1`, `parse_html` returns exactly
the first `min(k, m)` results of the `k` containers that have both a
heading and a hyperlink, in document order; containers missing either
contribute nothing (`containerResult` is `none` exactly for them, and
`filterMap` drops them). -/
theorem claim_C1 (doc : Html) (m : Int) (hm : 1 ≤ m) :
    parse_html doc m = (doc.filterMap containerResult).take m.toNat
    ∧ (parse_html doc m).length =
        min ((doc.filterMap containerResult).length) m.toNat := by
  have h := parseLoop_invariant m doc [] (by simp; omega)
  rw [parse_html]
  simp only [List.nil_append] at h
  refine ⟨h, ?_⟩
  rw [h]
  simp [List.length_take, Nat.min_comm]

/-- Witness for C1: three containers, one of them lacking its link,
with bound 5: both valid containers are returned, in order. -/
theorem claim_C1_witness :
    parse_html
      [⟨some ("/url?q=https://a.org/b.pdf&sa=U"), some ("T1")⟩,
       ⟨none, some ("T2")⟩,
       ⟨some ("https://c.org/d.pdf"), some ("T3")⟩] 5 =
      [("T1", "https://a.org/b.pdf"), ("T3", "https://c.org/d.pdf")] := by
  have h := (claim_C1
    [⟨some ("/url?q=https://a.org/b.pdf&sa=U"), some ("T1")⟩,
     ⟨none, some ("T2")⟩,
     ⟨some ("https://c.org/d.pdf"), some ("T3")⟩] 5 (by norm_num)).1
  rw [h]
  decide

/-- Counterexample to claim C10 as stated: a document whose first
container is malformed and whose second is valid, with
`num_results = 0`.  The claim asserts the output is exactly one pair;
the code breaks out of the loop after the first (contributing nothing)
container, so the output is empty. -/
theorem claim_C10_counterexample :
    parse_html [⟨none, none⟩, ⟨some ("h"), some ("t")⟩] 0 = []
    ∧ ([⟨none, none⟩, ⟨some ("h"), some ("t")⟩] : Html).filterMap containerResult
        = [("t", "h")] := by
  constructor
  · decide
  · decide

/-- Claim C10 (amended): for `num_results ≤ 0` the loop stops after
the first container, so the output is the first container's
contribution (one pair when it is valid, nothing when it is not) —
not always one result; for `num_results ≥ 1` the output length never
exceeds `num_results`. -/
theorem claim_C10_amended :
    (∀ (doc : Html) (m : Int), m ≤ 0 →
      parse_html doc m = (doc.head?.bind containerResult).toList)
    ∧ (∀ (doc : Html) (m : Int), 1 ≤ m →
        (parse_html doc m).length ≤ m.toNat) := by
  constructor
  · intro doc m hm
    cases doc with
    | nil => rfl
    | cons g rest =>
      rcases hg : containerResult g with _ | p
      · rw [parse_html, parseLoop, hg]
        simp only []
        rw [if_pos (by simp; omega)]
        simp [hg]
      · rw [parse_html, parseLoop, hg]
        simp only []
        rw [if_pos (by simp; omega)]
        simp [hg]
  · intro doc m hm
    have h := parseLoop_invariant m doc [] (by simp; omega)
    rw [parse_html, h]
    simp [List.length_take]

/-- Witness for C10 (amended): with `num_results = -3` and a single
valid container, exactly that container's pair is returned. -/
theorem claim_C10_witness :
    parse_html [⟨some ("h"), some ("t")⟩] (-3) = [("t", "h")] := by
  have h := claim_C10_amended.1 [⟨some ("h"), some ("t")⟩] (-3) (by norm_num)
  rw [h]
  decide

/-! ### Lemmas about the retry loop -/

theorem fetch_url_error (resp : HttpResponse) (h : resp.status ≠ 200) :
    fetch_url resp = .error (fetchError resp) := by
  rw [fetch_url, fetchError, if_neg h]
  by_cases h429 : resp.status = 429 <;> simp [h429]

theorem performAux_ok (net : Nat → HttpResponse) (nr : Int) (retries : Nat)
    (b : ℚ) (jit : Nat → ℚ) (fuel attempt : Nat) (html : Html)
    (h : fetch_url (net attempt) = .ok html) :
    performAux net nr retries b jit (fuel + 1) attempt =
      ⟨some (.ok (parse_html html nr)), 1, []⟩ := by
  simp only [performAux, h]

theorem performAux_error_retry (net : Nat → HttpResponse) (nr : Int) (retries : Nat)
    (b : ℚ) (jit : Nat → ℚ) (fuel attempt : Nat) (e : HttpError)
    (h : fetch_url (net attempt) = .error e) (hrem : attempt + 1 < retries) :
    performAux net nr retries b jit (fuel + 1) attempt =
      ⟨(performAux net nr retries b jit fuel (attempt + 1)).outcome,
        (performAux net nr retries b jit fuel (attempt + 1)).attempts + 1,
        sleepTime b jit attempt :: (performAux net nr retries b jit fuel (attempt + 1)).sleeps⟩ := by
  simp only [performAux, h, if_pos hrem]

theorem performAux_error_last (net : Nat → HttpResponse) (nr : Int) (retries : Nat)
    (b : ℚ) (jit : Nat → ℚ) (fuel attempt : Nat) (e : HttpError)
    (h : fetch_url (net attempt) = .error e) (hrem : ¬ attempt + 1 < retries) :
    performAux net nr retries b jit (fuel + 1) attempt =
      ⟨some (.error (exhaustedError retries e)), 1, []⟩ := by
  simp only [performAux, h, if_neg hrem]

/-- A run in which every attempt's response is non-200: it consumes
all its fuel, sleeps between consecutive attempts, and ends in the
exhaustion error built from the last attempt's failure. -/
theorem performAux_all_fail (net : Nat → HttpResponse) (nr : Int) (retries : Nat)
    (b : ℚ) (jit : Nat → ℚ) (hf : ∀ a, (net a).status ≠ 200) :
    ∀ fuel attempt, fuel + attempt = retries → 1 ≤ fuel →
      performAux net nr retries b jit fuel attempt =
        ⟨some (.error (exhaustedError retries (fetchError (net (retries - 1))))),
          fuel, (List.range' attempt (fuel - 1)).map (sleepTime b jit)⟩ := by
  intro fuel
  induction fuel with
  | zero => intro attempt _ h1; omega
  | succ f ih =>
    intro attempt hfa _
    by_cases hrem : attempt + 1 < retries
    · have hf1 : 1 ≤ f := by omega
      rw [performAux_error_retry net nr retries b jit f attempt
        (fetchError (net attempt)) (fetch_url_error (net attempt) (hf attempt)) hrem]
      rw [ih (attempt + 1) (by omega) hf1]
      have hrange : List.range' attempt (f + 1 - 1) =
          attempt :: List.range' (attempt + 1) (f - 1) := by
        have hf' : f + 1 - 1 = (f - 1) + 1 := by omega
        rw [hf', List.range'_succ]
      rw [hrange, List.map_cons]
    · have hlast : attempt = retries - 1 := by omega
      have hfuel : f = 0 := by omega
      subst hfuel
      rw [performAux_error_last net nr retries b jit 0 attempt
        (fetchError (net attempt)) (fetch_url_error (net attempt) (hf attempt)) hrem]
      rw [hlast]
      rfl

/-- A run that fails on every attempt before `s` and succeeds at
attempt `s`: it returns the parsed results after `s + 1 - attempt`
attempts, with one sleep between each pair of consecutive attempts. -/
theorem performAux_fail_then_ok (net : Nat → HttpResponse) (nr : Int) (retries : Nat)
    (b : ℚ) (jit : Nat → ℚ) (s : Nat) (doc : Html)
    (hf : ∀ a, a < s → (net a).status ≠ 200)
    (hs : fetch_url (net s) = .ok doc) :
    ∀ fuel attempt, fuel + attempt = retries → attempt ≤ s → s < retries →
      performAux net nr retries b jit fuel attempt =
        ⟨some (.ok (parse_html doc nr)), s + 1 - attempt,
          (List.range' attempt (s - attempt)).map (sleepTime b jit)⟩ := by
  intro fuel
  induction fuel with
  | zero => intro attempt hfa has hsr; omega
  | succ f ih =>
    intro attempt hfa has hsr
    by_cases hat : attempt = s
    · subst hat
      rw [performAux_ok net nr retries b jit f attempt doc hs]
      have h1 : attempt + 1 - attempt = 1 := by omega
      have h2 : attempt - attempt = 0 := by omega
      rw [h1, h2]
      rfl
    · have hlt : attempt < s := by omega
      have hrem : attempt + 1 < retries := by omega
      rw [performAux_error_retry net nr retries b jit f attempt
        (fetchError (net attempt)) (fetch_url_error (net attempt) (hf attempt hlt)) hrem]
      rw [ih (attempt + 1) (by omega) (by omega) hsr]
      have ha1 : s + 1 - (attempt + 1) + 1 = s + 1 - attempt := by omega
      have hrange : List.range' attempt (s - attempt) =
          attempt :: List.range' (attempt + 1) (s - (attempt + 1)) := by
        have h' : s - attempt = (s - (attempt + 1)) + 1 := by omega
        rw [h', List.range'_succ]
      rw [hrange, List.map_cons, ha1]

/-- Counterexample to the last part of claim C3: the terminal failure
does not map to a client-facing status that distinguishes
rate-limiting from generic failure.  With `retries = 2`, a fetcher
that is always rate-limited (status 429) and a fetcher that always
fails generically (status 404) both surface status 500 to the
caller. -/
theorem claim_C3_counterexample :
    (perform_search (fun _ _ _ => ⟨429, []⟩) ("u") 1 2 1 (fun _ => 0)).outcome =
      some (.error ⟨500, "All 2 attempts failed. Error: 429: Rate limit exceeded"⟩)
    ∧ (perform_search (fun _ _ _ => ⟨404, []⟩) ("u") 1 2 1 (fun _ => 0)).outcome =
      some (.error ⟨500, "All 2 attempts failed. Error: 404: Unexpected response status: 404"⟩) := by
  constructor
  · rfl
  · rfl

/-- Claim C3 (amended): with `retries = r ≥ 1` and every fetch attempt
failing, `perform_search` makes exactly `r` fetch attempts and then
fails terminally with an error carrying the attempt count and the last
cause in its detail message; the client-facing status of this terminal
error is always 500, for rate-limited and generic causes alike (the
cause remains distinguishable only through the detail text). -/
theorem claim_C3_amended (net : String → List (String × String) → Nat → HttpResponse)
    (url : String) (nr : Int) (r : Nat) (b : ℚ) (jit : Nat → ℚ)
    (hr : 1 ≤ r) (hf : ∀ a, (net url headers a).status ≠ 200) :
    (perform_search net url nr r b jit).attempts = r
    ∧ (perform_search net url nr r b jit).outcome =
        some (.error (exhaustedError r (fetchError (net url headers (r - 1)))))
    ∧ (exhaustedError r (fetchError (net url headers (r - 1)))).status = 500
    ∧ (exhaustedError r (fetchError (net url headers (r - 1)))).detail =
        "All " ++ toString r ++ " attempts failed. Error: "
          ++ errStr (fetchError (net url headers (r - 1))) := by
  have h := performAux_all_fail (fun a => net url headers a) nr r b jit hf r 0
    (by omega) hr
  rw [perform_search, h]
  exact ⟨rfl, rfl, rfl, rfl⟩

/-- Witness for C3 (amended) at `retries = 2` with a permanently
rate-limited fetcher. -/
theorem claim_C3_witness :
    (perform_search (fun _ _ _ => ⟨429, []⟩) ("u") 1 2 1 (fun _ => 0)).attempts = 2
    ∧ (perform_search (fun _ _ _ => ⟨429, []⟩) ("u") 1 2 1 (fun _ => 0)).outcome =
        some (.error (exhaustedError 2 (fetchError ⟨429, []⟩))) := by
  have h := claim_C3_amended (fun _ _ _ => ⟨429, []⟩) ("u") 1 2 1 (fun _ => 0)
    (by norm_num) (fun a => by show (429 : Nat) ≠ 200; decide)
  exact ⟨h.1, h.2.1⟩

/-- Claim C4: each failed attempt with attempts remaining sleeps for
`backoff_factor * 2 ^ attempt` plus the jitter draw of that attempt;
with a fetcher failing transiently exactly `r - 1` times then
succeeding, `retries = r`, jitter in `[0, 1)` and
`backoff_factor ≥ 1`, the call succeeds after exactly `r` fetch
attempts and the sleeps are strictly increasing. -/
theorem claim_C4 (net : String → List (String × String) → Nat → HttpResponse)
    (url : String) (nr : Int) (r : Nat) (b : ℚ) (jit : Nat → ℚ) (doc : Html)
    (hr : 1 ≤ r)
    (hf : ∀ a, a < r - 1 → (net url headers a).status ≠ 200)
    (hsucc : fetch_url (net url headers (r - 1)) = .ok doc)
    (hjit : ∀ a, 0 ≤ jit a ∧ jit a < 1)
    (hb : 1 ≤ b) :
    (perform_search net url nr r b jit).outcome = some (.ok (parse_html doc nr))
    ∧ (perform_search net url nr r b jit).attempts = r
    ∧ (perform_search net url nr r b jit).sleeps =
        (List.range (r - 1)).map (fun a => b * 2 ^ a + jit a)
    ∧ ∀ (i : Nat) (h : i + 1 < (perform_search net url nr r b jit).sleeps.length),
        (perform_search net url nr r b jit).sleeps.get ⟨i, Nat.lt_of_succ_lt h⟩ <
          (perform_search net url nr r b jit).sleeps.get ⟨i + 1, h⟩ := by
  have h := performAux_fail_then_ok (fun a => net url headers a) nr r b jit (r - 1)
    doc hf hsucc r 0 (by omega) (by omega) (by omega)
  rw [perform_search, h]
  have hone : (1 : ℚ) ≤ 2 := by norm_num
  have hpow : ∀ i : Nat, (1 : ℚ) ≤ 2 ^ i := by
    intro i
    induction i with
    | zero => norm_num
    | succ k ihk =>
      rw [pow_succ]
      nlinarith
  have hmono : ∀ i : Nat, sleepTime b jit i < sleepTime b jit (i + 1) := by
    intro i
    rw [sleepTime, sleepTime, pow_succ]
    have h1 : (1 : ℚ) ≤ b * 2 ^ i := by
      have := hpow i
      nlinarith
    have h2 := (hjit i).2
    have h3 := (hjit (i + 1)).1
    nlinarith
  refine ⟨rfl, by simp; omega, ?_, ?_⟩
  · rw [List.range_eq_range']
    rfl
  · intro i hlen
    simp only [List.get_eq_getElem, List.getElem_map, List.getElem_range']
    simpa using hmono i

/-- Witness for C4: two rate-limited attempts, then success, with
`retries = 3`. -/
theorem claim_C4_witness :
    (perform_search (fun _ _ a => if a = 2 then ⟨200, [⟨some ("h"), some ("t")⟩]⟩ else ⟨429, []⟩)
      ("u") 5 3 1 (fun _ => 1/2)).outcome = some (.ok [("t", "h")])
    ∧ (perform_search (fun _ _ a => if a = 2 then ⟨200, [⟨some ("h"), some ("t")⟩]⟩ else ⟨429, []⟩)
      ("u") 5 3 1 (fun _ => 1/2)).attempts = 3 := by
  have h := claim_C4
    (fun _ _ a => if a = 2 then ⟨200, [⟨some ("h"), some ("t")⟩]⟩ else ⟨429, []⟩)
    ("u") 5 3 1 (fun _ => 1/2) [⟨some ("h"), some ("t")⟩]
    (by norm_num)
    (by
      intro a ha
      rcases a with _ | a
      · show (429 : Nat) ≠ 200
        decide
      · rcases a with _ | a
        · show (429 : Nat) ≠ 200
          decide
        · exact absurd ha (by omega))
    rfl
    (fun a => ⟨by norm_num, by norm_num⟩)
    le_rfl
  exact ⟨h.1.trans rfl, h.2.1⟩

/-- Claim C6: `fetch_url` returns the body on status 200, fails with
the rate-limit error on 429, and fails with a generic error carrying
the status on anything else; the generic error is distinct from the
rate-limit one (its status is never 429).  The function classifies a
single response, so it performs no retry by construction. -/
theorem claim_C6 (resp : HttpResponse) :
    (resp.status = 200 → fetch_url resp = .ok resp.body)
    ∧ (resp.status = 429 → fetch_url resp = .error ⟨429, "Rate limit exceeded"⟩)
    ∧ (resp.status ≠ 200 → resp.status ≠ 429 →
        fetch_url resp =
          .error ⟨resp.status, "Unexpected response status: " ++ toString resp.status⟩
        ∧ ∀ e, fetch_url resp = .error e → e.status ≠ 429) := by
  refine ⟨?_, ?_, ?_⟩
  · intro h
    rw [fetch_url, if_pos h]
  · intro h
    have h200 : resp.status ≠ 200 := by omega
    rw [fetch_url, if_neg h200, if_pos h]
  · intro h200 h429
    have he : fetch_url resp =
        .error ⟨resp.status, "Unexpected response status: " ++ toString resp.status⟩ := by
      rw [fetch_url, if_neg h200, if_neg h429]
    refine ⟨he, ?_⟩
    intro e hee
    rw [he] at hee
    injection hee with h'
    rw [← h']
    exact h429

/-- Witness for C6 at statuses 200, 429 and 404. -/
theorem claim_C6_witness :
    fetch_url ⟨200, [⟨some ("h"), some ("t")⟩]⟩ = .ok [⟨some ("h"), some ("t")⟩]
    ∧ fetch_url ⟨429, []⟩ = .error ⟨429, "Rate limit exceeded"⟩
    ∧ fetch_url ⟨404, []⟩ = .error ⟨404, "Unexpected response status: 404"⟩ := by
  refine ⟨(claim_C6 ⟨200, [⟨some ("h"), some ("t")⟩]⟩).1 rfl,
    (claim_C6 ⟨429, []⟩).2.1 rfl, ?_⟩
  exact ((claim_C6 ⟨404, []⟩).2.2 (by decide) (by decide)).1.trans rfl

/-! ### Lemmas about the cache -/

theorem find?_none_of_key_ne (k : String) (now : ℚ)
    (l : List (String × ℚ × SearchResponse)) (hl : ∀ e ∈ l, e.1 ≠ k) :
    l.find? (fun e => e.1 == k && decide (now < e.2.1 + cache_ttl)) = none := by
  rw [List.find?_eq_none]
  intro x hx
  simp [hl x hx]

theorem find?_key_append (k : String) (now : ℚ) (v : SearchResponse)
    (l : List (String × ℚ × SearchResponse)) (hl : ∀ e ∈ l, e.1 ≠ k) :
    (l ++ [(k, now, v)]).find?
        (fun e => e.1 == k && decide (now < e.2.1 + cache_ttl)) = some (k, now, v) := by
  have hself : now < now + cache_ttl := by
    have : (0 : ℚ) < cache_ttl := by norm_num [cache_ttl]
    linarith
  rw [List.find?_append, find?_none_of_key_ne k now l hl]
  simp [List.find?, hself]

/-- Insertion followed by lookup at the same instant returns the
stored value (the capacity eviction drops oldest-inserted entries
only, never the fresh one, as long as the cache respected its bound
before the insertion). -/
theorem cacheGet_cachePut (c : CacheState) (now : ℚ) (k : String) (v : SearchResponse)
    (hlen : c.entries.length ≤ cache_maxsize) :
    cacheGet (cachePut c now k v) now k = some v := by
  have hkeys : ∀ e ∈ c.entries.filter (fun e => e.1 != k), e.1 ≠ k := by
    intro e he
    have := List.of_mem_filter he
    simpa using this
  have hflen : (c.entries.filter (fun e => e.1 != k)).length ≤ c.entries.length :=
    List.length_filter_le _ _
  have hput : (cachePut c now k v).entries =
      if cache_maxsize < (c.entries.filter (fun e => e.1 != k) ++ [(k, now, v)]).length
      then (c.entries.filter (fun e => e.1 != k) ++ [(k, now, v)]).drop
        ((c.entries.filter (fun e => e.1 != k) ++ [(k, now, v)]).length - cache_maxsize)
      else c.entries.filter (fun e => e.1 != k) ++ [(k, now, v)] := rfl
  unfold cacheGet
  rw [hput]
  by_cases hcap : cache_maxsize <
      (c.entries.filter (fun e => e.1 != k) ++ [(k, now, v)]).length
  · rw [if_pos hcap, List.drop_append_eq_append_drop]
    have hz : (c.entries.filter (fun e => e.1 != k) ++ [(k, now, v)]).length
        - cache_maxsize - (c.entries.filter (fun e => e.1 != k)).length = 0 := by
      have h100 : cache_maxsize = 100 := rfl
      rw [h100] at hlen
      simp [List.length_append, h100] at hcap ⊢
    rw [hz, List.drop_zero]
    rw [find?_key_append k now v _
      (fun e he => hkeys e (List.drop_subset _ _ he))]
  · rw [if_neg hcap, find?_key_append k now v _ hkeys]

/-- Claim C7: a fresh unexpired cache entry is returned immediately
with no search performed; on a miss followed by a successful
two-sided run the composed response is stored under the request's
key and is retrievable; and a `cacheGet` never returns an entry whose
TTL has elapsed. -/
theorem claim_C7 :
    (∀ net jg ja (c : CacheState) (now : ℚ) (req : SearchRequest) (v : SearchResponse),
      cacheGet c now (cache_key req) = some v →
      search net jg ja c now req = ⟨.ok v, c, false⟩)
    ∧ (∀ net jg ja (c : CacheState) (now : ℚ) (req : SearchRequest) gr ar,
        c.entries.length ≤ cache_maxsize →
        cacheGet c now (cache_key req) = none →
        (perform_search net (global_search_url req.query) req.num_results
          default_retries default_backoff jg).outcome = some (.ok gr) →
        (perform_search net (archive_search_url req.query) req.num_results
          default_retries default_backoff ja).outcome = some (.ok ar) →
        search net jg ja c now req =
          ⟨.ok ⟨toResults gr, toResults ar⟩,
            cachePut c now (cache_key req) ⟨toResults gr, toResults ar⟩, true⟩
        ∧ cacheGet (cachePut c now (cache_key req) ⟨toResults gr, toResults ar⟩)
            now (cache_key req) = some ⟨toResults gr, toResults ar⟩)
    ∧ (∀ (c : CacheState) (now : ℚ) (k : String) (v : SearchResponse),
        cacheGet c now k = some v →
        ∃ t, (k, t, v) ∈ c.entries ∧ now < t + cache_ttl) := by
  refine ⟨?_, ?_, ?_⟩
  · intro net jg ja c now req v hget
    unfold search
    rw [hget]
  · intro net jg ja c now req gr ar hlen hmiss hg ha
    constructor
    · unfold search
      rw [hmiss, hg, ha]
      rfl
    · exact cacheGet_cachePut c now (cache_key req) ⟨toResults gr, toResults ar⟩ hlen
  · intro c now k v hget
    unfold cacheGet at hget
    rcases hf : c.entries.find? (fun e => e.1 == k && decide (now < e.2.1 + cache_ttl))
        with _ | e
    · rw [hf] at hget
      exact absurd hget (by simp)
    · rw [hf] at hget
      injection hget with he
      have hp := List.find?_some hf
      have hmem := List.mem_of_find?_eq_some hf
      obtain ⟨e1, e2, e3⟩ := e
      simp only [Bool.and_eq_true, beq_iff_eq, decide_eq_true_eq] at hp
      obtain ⟨hk, htl⟩ := hp
      refine ⟨e2, ?_, htl⟩
      rw [← hk, ← he]
      exact hmem

/-- Witness for C7: a one-entry cache hit at `now = 0`. -/
theorem claim_C7_witness :
    search (fun _ _ _ => ⟨429, []⟩) (fun _ => 0) (fun _ => 0)
      ⟨[(("q:1" : String), (0 : ℚ), (⟨[], []⟩ : SearchResponse))]⟩ 0 ⟨"q", 1⟩ =
      ⟨.ok ⟨[], []⟩, ⟨[("q:1", 0, ⟨[], []⟩)]⟩, false⟩ := by
  have hget : cacheGet ⟨[("q:1", 0, ⟨[], []⟩)]⟩ 0 (cache_key ⟨"q", 1⟩) =
      some ⟨[], []⟩ := by
    have hk : cache_key (⟨"q", 1⟩ : SearchRequest) = "q:1" := rfl
    rw [hk]
    unfold cacheGet
    have hp : (0 : ℚ) < 0 + cache_ttl := by norm_num [cache_ttl]
    have hp2 : (0 : ℚ) < cache_ttl := by norm_num [cache_ttl]
    simp [List.find?, hp]
    rw [decide_eq_true hp2]
  exact claim_C7.1 (fun _ _ _ => ⟨429, []⟩) (fun _ => 0) (fun _ => 0)
    ⟨[("q:1", 0, ⟨[], []⟩)]⟩ 0 ⟨"q", 1⟩ ⟨[], []⟩ hget

/-- Claim C2: on a cache miss, if either of the two `perform_search`
invocations fails terminally, `search` propagates an error, leaves
the cache unchanged and returns no (partial) response. -/
theorem claim_C2 (net : String → List (String × String) → Nat → HttpResponse)
    (jg ja : Nat → ℚ) (c : CacheState) (now : ℚ) (req : SearchRequest)
    (hmiss : cacheGet c now (cache_key req) = none)
    (hfail :
      (∃ e, (perform_search net (global_search_url req.query) req.num_results
        default_retries default_backoff jg).outcome = some (.error e))
      ∨ (∃ e, (perform_search net (archive_search_url req.query) req.num_results
        default_retries default_backoff ja).outcome = some (.error e))) :
    ∃ e, search net jg ja c now req = ⟨.error e, c, true⟩ := by
  unfold search
  rw [hmiss]
  rcases hfail with ⟨e, he⟩ | ⟨e, he⟩
  · rw [he]
    exact ⟨e, rfl⟩
  · rw [he]
    rcases hgo : (perform_search net (global_search_url req.query) req.num_results
        default_retries default_backoff jg).outcome with _ | ge
    · exact ⟨no_result_error, rfl⟩
    · rcases ge with gerr | gok
      · exact ⟨gerr, rfl⟩
      · exact ⟨e, rfl⟩

/-- Witness for C2: both sides permanently rate-limited on an empty
cache. -/
theorem claim_C2_witness :
    ∃ e, search (fun _ _ _ => ⟨429, []⟩) (fun _ => 0) (fun _ => 0) ⟨[]⟩ 0 ⟨"q", 1⟩ =
      ⟨.error e, ⟨[]⟩, true⟩ := by
  exact claim_C2 (fun _ _ _ => ⟨429, []⟩) (fun _ => 0) (fun _ => 0) ⟨[]⟩ 0 ⟨"q", 1⟩
    rfl
    (Or.inl ⟨⟨500, "All 3 attempts failed. Error: 429: Rate limit exceeded"⟩, rfl⟩)

/-- Claim C8: for every query the general outbound url is the base
search endpoint, the `filetype:pdf` filter, then the query; the
archive one additionally carries the `site:archive.org` scope; the
requests carry the literal browser User-Agent header; and `search`
consults the network only at those two urls with those headers (two
environments agreeing there yield identical outcomes). -/
theorem claim_C8 :
    (∀ q, global_search_url q = search_endpoint ++ filetype_filter ++ q)
    ∧ (∀ q, archive_search_url q = search_endpoint ++ archive_scope ++ filetype_filter ++ q)
    ∧ headers = [("User-Agent", browser_user_agent)]
    ∧ ∀ net net' (jg ja : Nat → ℚ) (c : CacheState) (now : ℚ) (req : SearchRequest),
        (∀ a, net (global_search_url req.query) headers a =
          net' (global_search_url req.query) headers a) →
        (∀ a, net (archive_search_url req.query) headers a =
          net' (archive_search_url req.query) headers a) →
        search net jg ja c now req = search net' jg ja c now req := by
  refine ⟨fun q => rfl, fun q => rfl, rfl, ?_⟩
  intro net net' jg ja c now req h1 h2
  have e1 : (fun a => net (global_search_url req.query) headers a) =
      (fun a => net' (global_search_url req.query) headers a) := funext h1
  have e2 : (fun a => net (archive_search_url req.query) headers a) =
      (fun a => net' (archive_search_url req.query) headers a) := funext h2
  unfold search perform_search
  rw [e1, e2]

/-- Witness for C8 at query `"x"`. -/
theorem claim_C8_witness :
    global_search_url ("x") = search_endpoint ++ filetype_filter ++ "x"
    ∧ search (fun _ _ _ => ⟨429, []⟩) (fun _ => 0) (fun _ => 0) ⟨[]⟩ 0 ⟨"x", 1⟩ =
        search (fun _ _ _ => ⟨429, []⟩) (fun _ => 0) (fun _ => 0) ⟨[]⟩ 0 ⟨"x", 1⟩ := by
  refine ⟨claim_C8.1 ("x"), ?_⟩
  exact claim_C8.2.2.2 (fun _ _ _ => ⟨429, []⟩) (fun _ _ _ => ⟨429, []⟩)
    (fun _ => 0) (fun _ => 0) ⟨[]⟩ 0 ⟨"x", 1⟩ (fun a => rfl) (fun a => rfl)

/-- Counterexample to claim C9 as stated: the model accepts and
processes a request with an empty query and `num_results = 0` — no
validation rejects it (the run below even completes with an empty
successful response against a stubbed upstream). -/
theorem claim_C9_counterexample :
    (mkSearchRequest ("") (some 0)).query = ""
    ∧ (mkSearchRequest ("") (some 0)).num_results = 0
    ∧ (search (fun _ _ _ => ⟨200, []⟩) (fun _ => 0) (fun _ => 0) ⟨[]⟩ 0
        (mkSearchRequest ("") (some 0))).result = .ok ⟨[], []⟩ := by
  exact ⟨rfl, rfl, rfl⟩

/-- Claim C9 (amended): `num_results` defaults to 10 when omitted, but
no constraint is enforced beyond the field types: any query string
(including the empty one) and any integer count (including
non-positive ones) are accepted as given. -/
theorem claim_C9_amended :
    (∀ (q : String) (n : Int), mkSearchRequest q (some n) = ⟨q, n⟩)
    ∧ (∀ q : String, mkSearchRequest q none = ⟨q, 10⟩) :=
  ⟨fun _ _ => rfl, fun _ => rfl⟩

end Nami
